import Mathlib

/-!
# Verification of the financial planning engine

A shallow embedding of the projection / viability engine of
streamlit_app.py.  Python floats are idealised as exact rationals; Python
lists become Lean lists; dictionary fields that may be missing become
Option-typed record fields read through getD with the default the source
uses.  Division in the source is total rational division in the embedding
(Lean's x / 0 = 0 convention); the one place a ZeroDivisionError is
actually reachable on inputs a claim quantifies over (compute_payback and
compute_mirr at a discount factor of exactly zero) is modelled explicitly
with an Option-wrapped result, where the outer none stands for the raised
exception.  Functions that mutate a Python list in place are modelled as
functions returning the new list.
-/

/- ----------------------------------------------------------------------
   Simples Nacional tax table  (source: SIMPLIES_THRESHOLDS /
   SIMPLIES_TABLES / compute_simples_tax)
   ---------------------------------------------------------------------- -/

/-- One annex of the Simples Nacional table: nominal rates and deductions
per revenue bracket. -/
structure SimplesTable where
  rates : List ℚ
  deductions : List ℚ
deriving DecidableEq

/-- The six bracket upper thresholds, shared by all annexes. -/
def SIMPLIES_THRESHOLDS : List ℚ := [180000, 360000, 720000, 1800000, 3600000, 4800000]

/-- Per-annex rate/deduction tables; the dictionary lookup of the source
becomes a String-keyed function returning none for unknown annexes. -/
def SIMPLIES_TABLES (annex : String) : Option SimplesTable :=
  if annex = "I" then
    some ⟨[0.04, 0.073, 0.095, 0.107, 0.143, 0.19], [0, 5940, 13860, 22500, 87300, 378000]⟩
  else if annex = "II" then
    some ⟨[0.045, 0.078, 0.10, 0.112, 0.147, 0.30], [0, 5940, 13860, 22500, 85500, 720000]⟩
  else if annex = "III" then
    some ⟨[0.06, 0.112, 0.135, 0.16, 0.21, 0.33], [0, 9360, 17640, 35640, 125640, 648000]⟩
  else if annex = "IV" then
    some ⟨[0.045, 0.09, 0.102, 0.14, 0.22, 0.33], [0, 8100, 12420, 39780, 183780, 828000]⟩
  else if annex = "V" then
    some ⟨[0.155, 0.18, 0.195, 0.205, 0.23, 0.305], [0, 4500, 9900, 17100, 62100, 540000]⟩
  else
    none

/-- The bracket selection loop of compute_simples_tax:
idx starts at 0; for each threshold, if revenue is at most it, stop with
that position, otherwise remember the position and continue. -/
def bracket_loop (revenue : ℚ) : Nat → List ℚ → Nat → Nat
  | _, [], idx => idx
  | j, limit :: rest, _ => if revenue ≤ limit then j else bracket_loop revenue (j + 1) rest j

/-- Bracket index chosen by compute_simples_tax for a positive revenue. -/
def simples_bracket_idx (revenue : ℚ) : Nat :=
  bracket_loop revenue 0 SIMPLIES_THRESHOLDS 0

/-- Effective Simples Nacional rate and tax amount
(source: compute_simples_tax). -/
def compute_simples_tax (revenue : ℚ) (annex : String) : ℚ × ℚ :=
  if revenue ≤ 0 then (0, 0)
  else
    match SIMPLIES_TABLES annex with
    | none => (0, 0)
    | some table =>
      let idx := simples_bracket_idx revenue
      let nominal_rate := table.rates.getD idx 0
      let deduction := table.deductions.getD idx 0
      let effective_rate := max ((revenue * nominal_rate - deduction) / revenue) 0
      (effective_rate, revenue * effective_rate)

/-- The pre-floor effective rate expression of compute_simples_tax for
bracket j, as a standalone function for reasoning about monotonicity. -/
def simplesRate (tbl : SimplesTable) (j : Nat) (r : ℚ) : ℚ :=
  (r * tbl.rates.getD j 0 - tbl.deductions.getD j 0) / r

/- ----------------------------------------------------------------------
   Installment scheduling primitives  (source: pop_scheduled_amount /
   schedule_installment_flow)
   ---------------------------------------------------------------------- -/

/-- Pop the amount due now from a schedule queue and advance it
(source: pop_scheduled_amount).  The Python function mutates the list; the
embedding returns the popped amount together with the updated list. -/
def pop_scheduled_amount (schedule : List ℚ) : ℚ × List ℚ :=
  let s := if schedule.isEmpty then schedule ++ [(0 : ℚ)] else schedule
  (s.headD 0, s.tail ++ [0])

/-- schedule.extend([0.0] * (i - len(schedule) + 1)) followed by
schedule[i] += x, as a pure function. -/
def addAt (schedule : List ℚ) (i : Nat) (x : ℚ) : List ℚ :=
  let s := if schedule.length ≤ i then schedule ++ List.replicate (i + 1 - schedule.length) 0
           else schedule
  s.set i (s.getD i 0 + x)

/-- Split an accrual amount into an immediate part and installments pushed
onto the queue at offsets 1..n (source: schedule_installment_flow).
Returns (immediate, updated queue). -/
def schedule_installment_flow (schedule : List ℚ) (amount : ℚ) (pct_prazo : ℚ)
    (installments : Int) : ℚ × List ℚ :=
  let amt := amount
  let pct := min (max pct_prazo 0) 100 / 100
  let n_inst : Nat := (max (if installments = 0 then 1 else installments) 1).toNat
  let immediate := amt * (1 - pct)
  let term_total := amt * pct
  if 0 < term_total then
    let each := term_total / (n_inst : ℚ)
    (immediate, (List.range n_inst).foldl (fun s k => addAt s (k + 1) each) schedule)
  else
    (immediate, schedule)

/- ----------------------------------------------------------------------
   Viability metrics  (source: compute_mirr / compute_payback)
   ---------------------------------------------------------------------- -/

/-- Present value of the negative flows discounted at the finance rate
(the first loop of compute_mirr).  Returns none when the source would
raise ZeroDivisionError, i.e. when a negative flow sits at an index whose
discount factor (1 + finance_rate) ^ t is zero. -/
def mirr_pv_neg (finance_rate : ℚ) : List ℚ → Nat → Option ℚ
  | [], _ => some 0
  | cf :: rest, t =>
    match mirr_pv_neg finance_rate rest (t + 1) with
    | none => none
    | some s =>
      if cf < 0 then
        if (1 + finance_rate) ^ t = 0 then none
        else some (cf / (1 + finance_rate) ^ t + s)
      else some s

/-- Future value of the positive flows compounded at the reinvest rate
(the second loop of compute_mirr). -/
def mirr_fv_pos (reinvest_rate : ℚ) (n : Nat) : List ℚ → Nat → ℚ
  | [], _ => 0
  | cf :: rest, t =>
    (if 0 < cf then cf * (1 + reinvest_rate) ^ (n - t) else 0) +
      mirr_fv_pos reinvest_rate n rest (t + 1)

/-- Modified internal rate of return (source: compute_mirr).  The outer
Option models the uncaught ZeroDivisionError path; the inner Option is the
source's None result.  The final real power never raises in the source
because its base fv_pos / (-pv_neg) is never negative there, so the
try/except around it has no effect. -/
noncomputable def compute_mirr (cashflows : List ℚ) (finance_rate reinvest_rate : ℚ) :
    Option (Option ℝ) :=
  let n : Nat := cashflows.length - 1
  if cashflows.length ≤ 1 then some none
  else
    match mirr_pv_neg finance_rate cashflows 0 with
    | none => none
    | some pv_neg =>
      if pv_neg = 0 then some none
      else
        let fv_pos := mirr_fv_pos reinvest_rate n cashflows 0
        some (some (((fv_pos / (-pv_neg) : ℚ) : ℝ) ^ ((1 : ℝ) / (n : ℝ)) - 1))

/-- The simple payback loop of compute_payback: first index at which the
running sum of the raw flows becomes nonnegative. -/
def payback_simple_loop : List ℚ → Nat → ℚ → Option Nat
  | [], _, _ => none
  | cf :: rest, i, cum =>
    let c := cum + cf
    if 0 ≤ c then some i else payback_simple_loop rest (i + 1) c

/-- The discounted payback loop of compute_payback.  Returns none for the
ZeroDivisionError the source raises when the discount factor
(1 + discount_rate) ^ i is zero at some index it reaches. -/
def payback_discounted_loop (r : ℚ) : List ℚ → Nat → ℚ → Option (Option Nat)
  | [], _, _ => some none
  | cf :: rest, i, cum =>
    if (1 + r) ^ i = 0 then none
    else
      let c := cum + cf / (1 + r) ^ i
      if 0 ≤ c then some (some i) else payback_discounted_loop r rest (i + 1) c

/-- Payback and discounted payback (source: compute_payback).  The outer
Option models the ZeroDivisionError path of the discounted loop. -/
def compute_payback (cashflows : List ℚ) (discount_rate : ℚ) :
    Option (Option Nat × Option Nat) :=
  match payback_discounted_loop discount_rate cashflows 0 0 with
  | none => none
  | some d => some (payback_simple_loop cashflows 0 0, d)

/-- Running discounted sum of the first k flows:
flows[i] / (1 + r) ^ i summed over i < k. -/
def discCumSum (r : ℚ) (flows : List ℚ) (k : Nat) : ℚ :=
  ∑ i ∈ Finset.range k, flows.getD i 0 / (1 + r) ^ i

/- ----------------------------------------------------------------------
   Plan snapshot data model (the slice of Streamlit session_state the
   engine reads).  Option-typed fields model dictionary keys that may be
   absent; they are read with the same defaults the source uses.
   ---------------------------------------------------------------------- -/

/-- One user-entered monthly override; either field may be missing. -/
structure MonthlyEntry where
  price : Option ℚ
  qty : Option ℚ
deriving DecidableEq

/-- A fully resolved month of one product's series. -/
structure MonthlyPoint where
  price : ℚ
  qty : ℚ
deriving DecidableEq

/-- A product (an entry of state["revenue"]). -/
structure RevenueItem where
  price : Option ℚ
  qty : Option ℚ
  prazo : Option ℚ
  prazo_parcelas : Option Int
deriving DecidableEq

/-- A direct cost or variable expense attached to a product. -/
structure CostItem where
  qty : Option ℚ
  unit : Option ℚ
  prazo_pct : Option ℚ
  term : Option ℚ
  prazo_parcelas : Option Int
deriving DecidableEq

/-- A fixed monthly cost or expense. -/
structure FixedItem where
  value : Option ℚ
  prazo_pct : Option ℚ
  prazo_parcelas : Option Int
deriving DecidableEq

/-- Fixed items grouped by the three categories the source iterates. -/
structure FixedCategories where
  op : List FixedItem
  adm : List FixedItem
  sales : List FixedItem
deriving DecidableEq

/-- An investment (an entry of state["investments"]).  The engine reads
only value and month; paymentMode and installments may be present in a
state dictionary (Python dicts are open records) but are never read by
any function of the source. -/
structure InvestmentItem where
  value : Option ℚ
  month : Option Int
  paymentMode : Option String
  installments : Option Int
deriving DecidableEq

/-- Financing terms (state["financing"]). -/
structure Financing where
  amount : Option ℚ
  rate : Option ℚ
  years : Option Int
deriving DecidableEq

/-- The plan snapshot: the session_state fields the engine reads.
revenue_monthly, costs and variable_expenses are keyed by product index;
an index with no data maps to the empty list, exactly how the source's
dict.get(...) fallbacks behave. -/
structure SessionState where
  horizon : Option Int
  revenue : List RevenueItem
  revenue_monthly : Nat → List (Option MonthlyEntry)
  costs : Nat → List CostItem
  variable_expenses : Nat → List CostItem
  fixed_costs : FixedCategories
  fixed_expenses : FixedCategories
  investments : List InvestmentItem
  financing : Financing
  calculate_tax : Bool
  tax_annex : String

/-- max(int(state.get("horizon", 1) or 0), 1). -/
def horizonOf (s : SessionState) : Nat := (max (s.horizon.getD 1) 1).toNat

/-- int(d.get("prazo_parcelas", 1) or 1): a missing or zero installment
count becomes 1. -/
def pyParcelas (o : Option Int) : Int :=
  match o with
  | none => 1
  | some v => if v = 0 then 1 else v

/-- cost_item.get("prazo_pct", cost_item.get("term", 0.0)) or 0.0. -/
def costPrazoPct (c : CostItem) : ℚ := c.prazo_pct.getD (c.term.getD 0)

/- ----------------------------------------------------------------------
   Series normalizer  (source: normalize_monthly_series)
   ---------------------------------------------------------------------- -/

/-- The padding loop of normalize_monthly_series: for each of the
remaining slots, copy the configured entry when the index is inside the
configured list (falling back to the carried values for a missing field or
a null entry), otherwise repeat the carried values. -/
def normalizeAux (ml : List (Option MonthlyEntry)) :
    Nat → Nat → ℚ → ℚ → List MonthlyPoint
  | _, 0, _, _ => []
  | idx, k + 1, lastPrice, lastQty =>
    let pq : ℚ × ℚ :=
      match ml[idx]? with
      | some entryOpt =>
        let entry := entryOpt.getD ⟨none, none⟩
        (entry.price.getD lastPrice, entry.qty.getD lastQty)
      | none => (lastPrice, lastQty)
    ⟨pq.1, pq.2⟩ :: normalizeAux ml (idx + 1) k pq.1 pq.2

/-- Return a monthly price/quantity series aligned with the planning
horizon (source: normalize_monthly_series). -/
def normalize_monthly_series (s : SessionState) (product_index : Nat)
    (horizon_years : Int) : List MonthlyPoint :=
  let horizon : Nat := (max horizon_years 1).toNat
  let target_months := horizon * 12
  let product := s.revenue.getD product_index ⟨none, none, none, none⟩
  let monthly_list := s.revenue_monthly product_index
  let base_price := product.price.getD 0
  let base_qty := product.qty.getD 0
  normalizeAux monthly_list 0 target_months base_price base_qty

/- ----------------------------------------------------------------------
   Annual projection engine  (source: compute_projections)
   ---------------------------------------------------------------------- -/

/-- One row of the annual projection (year 0 is the initial period). -/
structure ProjectionYear where
  ano : Nat
  receita : ℚ
  custos : ℚ
  custosFixos : ℚ
  pagamentoEmprestimo : ℚ
  tributos : ℚ
  lucro : ℚ
deriving DecidableEq, Inhabited

/-- months_per_year = months_total // n_years, replaced by 12 when zero. -/
def monthsPerYear (nYears monthsTotal : Nat) : Nat :=
  let q := monthsTotal / nYears
  if q = 0 then 12 else q

/-- Per-product aggregation of a monthly quantity f into the bucket of
year y, with year_idx = min(m // months_per_year, n_years - 1): the net
effect of the accumulation loop of compute_projections. -/
def prodYearSum (monthly : List MonthlyPoint) (mpy nYears y : Nat)
    (f : MonthlyPoint → ℚ) : ℚ :=
  ∑ m ∈ Finset.range monthly.length,
    if min (m / mpy) (nYears - 1) = y then f (monthly.getD m ⟨0, 0⟩) else 0

/-- qty * unit of one cost item. -/
def itemCost (c : CostItem) : ℚ := c.qty.getD 0 * c.unit.getD 0

/-- Monthly fixed spending over all categories (costs plus expenses). -/
def fixedMonthTotal (s : SessionState) : ℚ :=
  ((s.fixed_costs.op ++ s.fixed_costs.adm ++ s.fixed_costs.sales
      ++ s.fixed_expenses.op ++ s.fixed_expenses.adm ++ s.fixed_expenses.sales).map
    (fun it => it.value.getD 0)).sum

/-- Total investment value. -/
def investmentsTotal (s : SessionState) : ℚ :=
  (s.investments.map (fun a => a.value.getD 0)).sum

/-- Annual annuity payment of the financing (zero-rate degenerates to
amount / years).  Division-by-zero states (rate exactly -100 percent)
follow Lean's zero convention. -/
def loanPaymentAnnual (loan_amount rate : ℚ) (years : Int) : ℚ :=
  if 0 < loan_amount ∧ 0 < years then
    if rate = 0 then loan_amount / (years : ℚ)
    else loan_amount * rate / (1 - (1 + rate) ^ (-years))
  else 0

/-- Direct cost basis of product i: sum of qty * unit over its cost items. -/
def costPerUnitOf (s : SessionState) (i : Nat) : ℚ := ((s.costs i).map itemCost).sum

/-- Variable expense basis of product i. -/
def varPerUnitOf (s : SessionState) (i : Nat) : ℚ :=
  ((s.variable_expenses i).map itemCost).sum

/-- Multi-year projections, cash flows and total investments
(source: compute_projections). -/
def compute_projections (s : SessionState) (variation : ℚ) :
    List ProjectionYear × List ℚ × ℚ :=
  let nYears := horizonOf s
  let monthlyOf : Nat → List MonthlyPoint := fun i =>
    normalize_monthly_series s i (nYears : Int)
  let qtyYear : Nat → Nat → ℚ := fun i y =>
    prodYearSum (monthlyOf i) (monthsPerYear nYears (monthlyOf i).length) nYears y
      (fun p => p.qty)
  let revYear : Nat → Nat → ℚ := fun i y =>
    prodYearSum (monthlyOf i) (monthsPerYear nYears (monthlyOf i).length) nYears y
      (fun p => p.price * p.qty)
  let revPerYear : Nat → ℚ := fun y => ∑ i ∈ Finset.range s.revenue.length, revYear i y
  let fixedAnnual := fixedMonthTotal s * 12
  let investments_total := investmentsTotal s
  let loan_amount := s.financing.amount.getD 0
  let rate := s.financing.rate.getD 0 / 100
  let years := s.financing.years.getD 0
  let payment := loanPaymentAnnual loan_amount rate years
  let projOf : Nat → ProjectionYear × ℚ := fun t =>
    if t = 0 then
      (⟨0, 0, 0, 0, 0, 0, 0⟩, loan_amount - investments_total)
    else
      let y := t - 1
      let revenue := revPerYear y * variation
      let cost := ∑ i ∈ Finset.range s.revenue.length,
        (costPerUnitOf s i * (qtyYear i y * variation)
          + varPerUnitOf s i * (qtyYear i y * variation))
      let loan_payment_year := if (t : Int) ≤ years then payment else 0
      let tax_amount := if s.calculate_tax then (compute_simples_tax revenue s.tax_annex).2 else 0
      let profit := revenue - cost - fixedAnnual - tax_amount
      (⟨t, revenue, cost, fixedAnnual, loan_payment_year, tax_amount, profit⟩,
       profit - loan_payment_year)
  ((List.range (nYears + 1)).map fun t => (projOf t).1,
   (List.range (nYears + 1)).map fun t => (projOf t).2,
   investments_total)

/- ----------------------------------------------------------------------
   Monthly cash flow engine  (source: compute_monthly_details)
   ---------------------------------------------------------------------- -/

/-- One monthly row of compute_monthly_details. -/
structure MonthlyRow where
  mes : Nat
  receita : ℚ
  receitaCaixa : ℚ
  custoVariavel : ℚ
  custoFixo : ℚ
  tributos : ℚ
  lucro : ℚ
  cfOperacional : ℚ
  cfFinanceiro : ℚ
  cfInvestimento : ℚ
  cfTotal : ℚ
deriving DecidableEq, Inhabited

/-- One annual aggregation row of compute_monthly_details. -/
structure AnnualRow where
  ano : Nat
  receita : ℚ
  receitaCaixa : ℚ
  custoVariavel : ℚ
  custoFixo : ℚ
  tributos : ℚ
  lucro : ℚ
  cfOperacional : ℚ
  cfFinanceiro : ℚ
  cfInvestimento : ℚ
  cfTotal : ℚ
deriving DecidableEq, Inhabited

/-- The three mutable schedule queues of the monthly loop. -/
structure QueueState where
  revQueues : List (List ℚ)
  varQ : List ℚ
  fixQ : List ℚ

/-- The per-month accumulators of the product loop. -/
structure MonthAcc where
  revenue_m : ℚ
  var_cost_m : ℚ
  cash_receipt_m : ℚ
  var_cost_cash_m : ℚ
  revQueues : List (List ℚ)
  varQ : List ℚ

/-- Annual revenue per year under the variation, used to derive effective
tax rates (the eff_rates precomputation of compute_monthly_details). -/
def revenueYearForTax (s : SessionState) (variation : ℚ)
    (monthlyOf : Nat → List MonthlyPoint) (horizon yr : Nat) : ℚ :=
  ∑ i ∈ Finset.range s.revenue.length,
    ∑ m ∈ Finset.range (monthlyOf i).length,
      if min (m / 12) (horizon - 1) = yr then
        ((monthlyOf i).getD m ⟨0, 0⟩).price * ((monthlyOf i).getD m ⟨0, 0⟩).qty * variation
      else 0

/-- One step of the investments_monthly accumulation: subtract the
asset's value at its (0-based) acquisition month when it lies inside the
horizon, otherwise leave the array unchanged. -/
def investmentStep (monthsTotal : Nat) (acc : List ℚ) (asset : InvestmentItem) : List ℚ :=
  let mIdx := asset.month.getD 0
  let val := asset.value.getD 0
  if 0 ≤ mIdx ∧ mIdx < (monthsTotal : Int) then
    acc.set mIdx.toNat (acc.getD mIdx.toNat 0 - val)
  else acc

/-- The investments_monthly array: a lump outflow of each asset's value at
its (0-based) acquisition month, ignored when the month is out of range. -/
def investmentsMonthly (s : SessionState) (monthsTotal : Nat) : List ℚ :=
  s.investments.foldl (investmentStep monthsTotal) (List.replicate monthsTotal 0)

/-- Schedule one variable item's cash (cost or variable expense) for the
month: item qty * unit * sold quantity through the payable queue. -/
def varItemStep (qty_m : ℚ) (vacc : ℚ × List ℚ) (c : CostItem) : ℚ × List ℚ :=
  let item_amount := c.qty.getD 0 * c.unit.getD 0 * qty_m
  let r := schedule_installment_flow vacc.2 item_amount (costPrazoPct c) (pyParcelas c.prazo_parcelas)
  (vacc.1 + r.1, r.2)

/-- Process one product inside one month: accrual revenue and variable
cost, receivable pop + schedule, and the payable scheduling of its cost
and variable-expense items. -/
def productStep (s : SessionState) (variation : ℚ)
    (monthlyOf : Nat → List MonthlyPoint) (m : Nat) (acc : MonthAcc) (i : Nat) :
    MonthAcc :=
  let m_data := (monthlyOf i).getD m ⟨0, 0⟩
  let qty_m := m_data.qty * variation
  let rev_i_m := m_data.price * qty_m
  let prod := s.revenue.getD i ⟨none, none, none, none⟩
  let pres := pop_scheduled_amount (acc.revQueues.getD i [])
  let sres := schedule_installment_flow pres.2 rev_i_m (prod.prazo.getD 0)
    (pyParcelas prod.prazo_parcelas)
  let v1 := (s.costs i).foldl (varItemStep qty_m) (acc.var_cost_cash_m, acc.varQ)
  let v2 := (s.variable_expenses i).foldl (varItemStep qty_m) v1
  { revenue_m := acc.revenue_m + rev_i_m
    var_cost_m := acc.var_cost_m + (costPerUnitOf s i + varPerUnitOf s i) * qty_m
    cash_receipt_m := acc.cash_receipt_m + pres.1 + sres.1
    var_cost_cash_m := v2.1
    revQueues := acc.revQueues.set i sres.2
    varQ := v2.2 }

/-- Schedule one fixed item's monthly value through the fixed payable
queue. -/
def fixedStep (facc : ℚ × List ℚ) (it : FixedItem) : ℚ × List ℚ :=
  let r := schedule_installment_flow facc.2 (it.value.getD 0) (it.prazo_pct.getD 0)
    (pyParcelas it.prazo_parcelas)
  (facc.1 + r.1, r.2)

/-- The fixed items in the order the monthly loop schedules them:
per category, fixed costs then fixed expenses. -/
def fixedOrdered (s : SessionState) : List FixedItem :=
  s.fixed_costs.op ++ s.fixed_expenses.op ++ s.fixed_costs.adm ++ s.fixed_expenses.adm
    ++ s.fixed_costs.sales ++ s.fixed_expenses.sales

/-- One iteration of the month loop of compute_monthly_details: pops the
payable queues, folds over the products, schedules the fixed items, and
assembles the row. -/
def monthStep (s : SessionState) (variation : ℚ)
    (monthlyOf : Nat → List MonthlyPoint) (horizon : Nat) (effRates : Nat → ℚ)
    (investMonthly : List ℚ) (loan_amount loan_payment_ann : ℚ) (years : Int)
    (fixed_month : ℚ) (m : Nat) (qs : QueueState) : MonthlyRow × QueueState :=
  let year_idx := min (m / 12) (horizon - 1)
  let p0 := pop_scheduled_amount qs.varQ
  let f0 := pop_scheduled_amount qs.fixQ
  let acc0 : MonthAcc := ⟨0, 0, 0, p0.1, qs.revQueues, p0.2⟩
  let acc := (List.range s.revenue.length).foldl (productStep s variation monthlyOf m) acc0
  let fres := (fixedOrdered s).foldl fixedStep (f0.1, f0.2)
  let tax_m := if s.calculate_tax then acc.revenue_m * effRates year_idx else 0
  let loan_inflow := if m = 0 ∧ 0 < loan_amount then loan_amount else 0
  let fin_cf_m := loan_inflow -
    (if ((m / 12 : Nat) : Int) < years then (if 0 < years then loan_payment_ann / 12 else 0) else 0)
  let invest_cf_m := investMonthly.getD m 0
  let oper_cf_m := acc.cash_receipt_m - acc.var_cost_cash_m - fres.1 - tax_m
  let profit_m := acc.revenue_m - acc.var_cost_m - fixed_month - tax_m
  let total_cf_m := oper_cf_m + fin_cf_m + invest_cf_m
  (⟨m + 1, acc.revenue_m, acc.cash_receipt_m, acc.var_cost_m, fixed_month, tax_m, profit_m,
     oper_cf_m, fin_cf_m, invest_cf_m, total_cf_m⟩,
   ⟨acc.revQueues, acc.varQ, fres.2⟩)

/-- The month loop: one row per month, threading the queue state. -/
def monthlyLoop (step : Nat → QueueState → MonthlyRow × QueueState) :
    Nat → Nat → QueueState → List MonthlyRow
  | _, 0, _ => []
  | m, k + 1, qs =>
    let r := step m qs
    r.1 :: monthlyLoop step (m + 1) k r.2

/-- Aggregate the 12 monthly rows of one (0-based) year into an annual
row. -/
def mkAnnual (rows : List MonthlyRow) (yr : Nat) : AnnualRow :=
  let sl := (rows.drop (yr * 12)).take 12
  ⟨yr + 1, (sl.map (fun r => r.receita)).sum, (sl.map (fun r => r.receitaCaixa)).sum,
    (sl.map (fun r => r.custoVariavel)).sum, (sl.map (fun r => r.custoFixo)).sum,
    (sl.map (fun r => r.tributos)).sum, (sl.map (fun r => r.lucro)).sum,
    (sl.map (fun r => r.cfOperacional)).sum, (sl.map (fun r => r.cfFinanceiro)).sum,
    (sl.map (fun r => r.cfInvestimento)).sum, (sl.map (fun r => r.cfTotal)).sum⟩

/-- Monthly and annual cash-flow and result projections
(source: compute_monthly_details). -/
def compute_monthly_details (s : SessionState) (variation : ℚ) :
    List MonthlyRow × List AnnualRow :=
  let horizon := horizonOf s
  let months_total := horizon * 12
  let monthlyOf : Nat → List MonthlyPoint := fun i =>
    normalize_monthly_series s i (horizon : Int)
  let fixed_month := fixedMonthTotal s
  let loan_amount := s.financing.amount.getD 0
  let rate := s.financing.rate.getD 0 / 100
  let years := s.financing.years.getD 0
  let loan_payment_ann := loanPaymentAnnual loan_amount rate years
  let effRates : Nat → ℚ := fun yr =>
    (compute_simples_tax (revenueYearForTax s variation monthlyOf horizon yr) s.tax_annex).1
  let investMonthly := investmentsMonthly s months_total
  let qs0 : QueueState := ⟨List.replicate s.revenue.length [0], [0], [0]⟩
  let rows := monthlyLoop
    (monthStep s variation monthlyOf horizon effRates investMonthly loan_amount
      loan_payment_ann years fixed_month)
    0 months_total qs0
  (rows, (List.range horizon).map fun yr => mkAnnual rows yr)

/-- The value of one slot of the normalizer given the carried pair: the
head case of normalizeAux, as a standalone function for reasoning. -/
def normalizeHead (ml : List (Option MonthlyEntry)) (idx : Nat) (lp lq : ℚ) : MonthlyPoint :=
  match ml[idx]? with
  | some entryOpt =>
    let entry := entryOpt.getD ⟨none, none⟩
    ⟨entry.price.getD lp, entry.qty.getD lq⟩
  | none => ⟨lp, lq⟩

/-- A small concrete plan used by several witnesses: one product with base
price 5 and quantity 2, one configured first month (price 10, qty 3), a
one-year horizon and nothing else. -/
def wState : SessionState where
  horizon := some 1
  revenue := [⟨some 5, some 2, none, none⟩]
  revenue_monthly := fun i => if i = 0 then [some ⟨some 10, some 3⟩] else []
  costs := fun _ => []
  variable_expenses := fun _ => []
  fixed_costs := ⟨[], [], []⟩
  fixed_expenses := ⟨[], [], []⟩
  investments := []
  financing := ⟨none, none, none⟩
  calculate_tax := false
  tax_annex := "I"

/-- A plan whose only content is one financed-in-installments investment:
value 1200 acquired at month 0 with paymentMode installment over 2
installments, on a one-year horizon. -/
def cState : SessionState where
  horizon := some 1
  revenue := []
  revenue_monthly := fun _ => []
  costs := fun _ => []
  variable_expenses := fun _ => []
  fixed_costs := ⟨[], [], []⟩
  fixed_expenses := ⟨[], [], []⟩
  investments := [⟨some 1200, some 0, some "installment", some 2⟩]
  financing := ⟨none, none, none⟩
  calculate_tax := false
  tax_annex := "I"

/- ----------------------------------------------------------------------
   General helper lemmas
   ---------------------------------------------------------------------- -/

theorem getD_replicate_zero (k j : Nat) : (List.replicate k (0 : ℚ)).getD j 0 = 0 := by
  induction k generalizing j with
  | zero => simp
  | succ n ih => cases j <;> simp [List.replicate, ih]

theorem getD_append_replicate_zero (l : List ℚ) (k j : Nat) :
    (l ++ List.replicate k 0).getD j 0 = l.getD j 0 := by
  induction l generalizing j with
  | nil => simpa using getD_replicate_zero k j
  | cons a t ih =>
    cases j with
    | zero => simp
    | succ n =>
      simp only [List.cons_append, List.getD_cons_succ]
      exact ih n

theorem sum_set_getD (l : List ℚ) (i : Nat) (v : ℚ) (h : i < l.length) :
    (l.set i v).sum = l.sum - l.getD i 0 + v := by
  induction l generalizing i with
  | nil => simp at h
  | cons a t ih =>
    cases i with
    | zero => simp; ring
    | succ n =>
      have hn : n < t.length := by simpa using h
      simp [ih n hn]
      ring

theorem getD_set (l : List ℚ) (i j : Nat) (v : ℚ) :
    (l.set i v).getD j 0 = if i = j ∧ i < l.length then v else l.getD j 0 := by
  induction l generalizing i j with
  | nil => simp
  | cons a t ih =>
    cases i with
    | zero => cases j <;> simp
    | succ n =>
      cases j with
      | zero => simp
      | succ m =>
        simp only [List.set, List.getD_cons_succ, ih n m, List.length_cons]
        by_cases hnm : n = m <;> simp [hnm] <;> omega

theorem addAt_length_lt (l : List ℚ) (i : Nat) (x : ℚ) :
    i < (if l.length ≤ i then l ++ List.replicate (i + 1 - l.length) 0 else l).length := by
  split
  · simp; omega
  · omega

theorem addAt_sum (l : List ℚ) (i : Nat) (x : ℚ) : (addAt l i x).sum = l.sum + x := by
  unfold addAt
  set s := if l.length ≤ i then l ++ List.replicate (i + 1 - l.length) 0 else l with hs
  have hlen : i < s.length := by rw [hs]; exact addAt_length_lt l i x
  have hsum : s.sum = l.sum := by
    rw [hs]; split
    · simp
    · rfl
  have hget : s.getD i 0 = l.getD i 0 := by
    rw [hs]; split
    · exact getD_append_replicate_zero l _ i
    · rfl
  rw [sum_set_getD s i _ hlen, hsum, hget]
  ring

theorem addAt_getD (l : List ℚ) (i j : Nat) (x : ℚ) :
    (addAt l i x).getD j 0 = if i = j then l.getD j 0 + x else l.getD j 0 := by
  unfold addAt
  set s := if l.length ≤ i then l ++ List.replicate (i + 1 - l.length) 0 else l with hs
  have hlen : i < s.length := by rw [hs]; exact addAt_length_lt l i x
  have hget : ∀ m, s.getD m 0 = l.getD m 0 := by
    intro m; rw [hs]; split
    · exact getD_append_replicate_zero l _ m
    · rfl
  rw [getD_set s i j _, hget i, hget j]
  rcases eq_or_ne i j with hij | hij
  · subst hij; simp [hlen]
  · simp [hij]

theorem fold_addAt_sum (l : List ℚ) (each : ℚ) (n : Nat) :
    ((List.range n).foldl (fun s k => addAt s (k + 1) each) l).sum = l.sum + n * each := by
  induction n with
  | zero => simp
  | succ m ih =>
    rw [List.range_succ, List.foldl_append]
    simp only [List.foldl_cons, List.foldl_nil, addAt_sum, ih]
    push_cast
    ring

theorem fold_addAt_getD (l : List ℚ) (each : ℚ) (n j : Nat) :
    ((List.range n).foldl (fun s k => addAt s (k + 1) each) l).getD j 0 =
      l.getD j 0 + if 1 ≤ j ∧ j ≤ n then each else 0 := by
  induction n with
  | zero =>
    simp only [List.range_zero, List.foldl_nil]
    rw [if_neg (by omega : ¬ (1 ≤ j ∧ j ≤ 0))]
    ring
  | succ m ih =>
    rw [List.range_succ, List.foldl_append]
    simp only [List.foldl_cons, List.foldl_nil, addAt_getD, ih]
    by_cases hj : m + 1 = j
    · subst hj
      rw [if_pos rfl, if_neg (by omega : ¬ (1 ≤ m + 1 ∧ m + 1 ≤ m)),
        if_pos (by omega : 1 ≤ m + 1 ∧ m + 1 ≤ m + 1)]
      ring
    · have hiff : (1 ≤ j ∧ j ≤ m + 1) ↔ (1 ≤ j ∧ j ≤ m) := by omega
      rw [if_neg hj]
      simp only [hiff]

/- ----------------------------------------------------------------------
   Claim C10: pop_scheduled_amount
   ---------------------------------------------------------------------- -/

/-- C10: pop_scheduled_amount returns the first element of the schedule
(0 when the schedule is empty); a non-empty schedule keeps its length (the
front element is removed and one zero is appended) and the result list is
never empty; an empty schedule becomes exactly the singleton zero list.
In particular the call is total, so popping an empty queue never raises. -/
theorem pop_scheduled_amount_spec (l : List ℚ) :
    (pop_scheduled_amount l).1 = l.headD 0 ∧
    (pop_scheduled_amount l).2 ≠ [] ∧
    (l ≠ [] → (pop_scheduled_amount l).2.length = l.length ∧
      (pop_scheduled_amount l).2 = l.tail ++ [0]) ∧
    (l = [] → (pop_scheduled_amount l).2 = [0]) := by
  cases l with
  | nil => simp [pop_scheduled_amount]
  | cons a t => simp [pop_scheduled_amount]

/-- Witness for C10 at a concrete non-empty queue. -/
theorem pop_scheduled_amount_spec_witness :
    (pop_scheduled_amount [5, 7]).1 = (5 : ℚ) ∧ (pop_scheduled_amount [5, 7]).2 = [7, 0] := by
  have h := pop_scheduled_amount_spec [5, 7]
  exact ⟨by simpa using h.1, by simpa using (h.2.2.1 (by decide)).2⟩

/- ----------------------------------------------------------------------
   Claim C1: compute_simples_tax
   ---------------------------------------------------------------------- -/

theorem simples_bracket_idx_eq (revenue : ℚ) :
    simples_bracket_idx revenue =
      if revenue ≤ 180000 then 0
      else if revenue ≤ 360000 then 1
      else if revenue ≤ 720000 then 2
      else if revenue ≤ 1800000 then 3
      else if revenue ≤ 3600000 then 4
      else 5 := by
  simp [simples_bracket_idx, SIMPLIES_THRESHOLDS, bracket_loop]

theorem simples_bracket_idx_spec (revenue : ℚ) :
    (revenue ≤ 4800000 →
      revenue ≤ SIMPLIES_THRESHOLDS.getD (simples_bracket_idx revenue) 0 ∧
      ∀ k < simples_bracket_idx revenue, SIMPLIES_THRESHOLDS.getD k 0 < revenue) ∧
    (4800000 < revenue → simples_bracket_idx revenue = 5) := by
  rw [simples_bracket_idx_eq]
  split_ifs with h1 h2 h3 h4 h5
  · exact ⟨fun _ => ⟨by simpa [SIMPLIES_THRESHOLDS] using h1, by omega⟩,
      fun hb => absurd hb (by linarith)⟩
  · refine ⟨fun _ => ⟨by simpa [SIMPLIES_THRESHOLDS] using h2, fun k hk => ?_⟩,
      fun hb => absurd hb (by linarith)⟩
    interval_cases k
    simpa [SIMPLIES_THRESHOLDS] using not_le.mp h1
  · refine ⟨fun _ => ⟨by simpa [SIMPLIES_THRESHOLDS] using h3, fun k hk => ?_⟩,
      fun hb => absurd hb (by linarith)⟩
    interval_cases k
    · simpa [SIMPLIES_THRESHOLDS] using not_le.mp h1
    · simpa [SIMPLIES_THRESHOLDS] using not_le.mp h2
  · refine ⟨fun _ => ⟨by simpa [SIMPLIES_THRESHOLDS] using h4, fun k hk => ?_⟩,
      fun hb => absurd hb (by linarith)⟩
    interval_cases k
    · simpa [SIMPLIES_THRESHOLDS] using not_le.mp h1
    · simpa [SIMPLIES_THRESHOLDS] using not_le.mp h2
    · simpa [SIMPLIES_THRESHOLDS] using not_le.mp h3
  · refine ⟨fun _ => ⟨by simpa [SIMPLIES_THRESHOLDS] using h5, fun k hk => ?_⟩,
      fun hb => absurd hb (by linarith)⟩
    interval_cases k
    · simpa [SIMPLIES_THRESHOLDS] using not_le.mp h1
    · simpa [SIMPLIES_THRESHOLDS] using not_le.mp h2
    · simpa [SIMPLIES_THRESHOLDS] using not_le.mp h3
    · simpa [SIMPLIES_THRESHOLDS] using not_le.mp h4
  · refine ⟨fun hb => ⟨by simpa [SIMPLIES_THRESHOLDS] using hb, fun k hk => ?_⟩,
      fun _ => rfl⟩
    interval_cases k
    · simpa [SIMPLIES_THRESHOLDS] using not_le.mp h1
    · simpa [SIMPLIES_THRESHOLDS] using not_le.mp h2
    · simpa [SIMPLIES_THRESHOLDS] using not_le.mp h3
    · simpa [SIMPLIES_THRESHOLDS] using not_le.mp h4
    · simpa [SIMPLIES_THRESHOLDS] using not_le.mp h5

/-- C1: compute_simples_tax returns (0, 0) for nonpositive revenue or an
unknown annex; otherwise it selects the bracket whose upper threshold is
the first one at least the revenue (the last bracket when the revenue
exceeds all thresholds), the effective rate is
max((revenue * nominalRate - deduction) / revenue, 0) and the tax amount
is revenue times that rate; for annex I and revenue exactly 180000 the
effective rate is 0.04. -/
theorem compute_simples_tax_matches_spec (revenue : ℚ) (annex : String) :
    (revenue ≤ 0 ∨ SIMPLIES_TABLES annex = none →
      compute_simples_tax revenue annex = (0, 0)) ∧
    (∀ tbl, 0 < revenue → SIMPLIES_TABLES annex = some tbl →
      (revenue ≤ 4800000 →
        revenue ≤ SIMPLIES_THRESHOLDS.getD (simples_bracket_idx revenue) 0 ∧
        ∀ k < simples_bracket_idx revenue, SIMPLIES_THRESHOLDS.getD k 0 < revenue) ∧
      (4800000 < revenue → simples_bracket_idx revenue = 5) ∧
      compute_simples_tax revenue annex =
        (max ((revenue * tbl.rates.getD (simples_bracket_idx revenue) 0
            - tbl.deductions.getD (simples_bracket_idx revenue) 0) / revenue) 0,
         revenue * max ((revenue * tbl.rates.getD (simples_bracket_idx revenue) 0
            - tbl.deductions.getD (simples_bracket_idx revenue) 0) / revenue) 0)) ∧
    (compute_simples_tax 180000 "I").1 = 4 / 100 := by
  have hI : SIMPLIES_TABLES "I" =
      some ⟨[0.04, 0.073, 0.095, 0.107, 0.143, 0.19], [0, 5940, 13860, 22500, 87300, 378000]⟩ := rfl
  refine ⟨?_, ?_, ?_⟩
  case refine_3 =>
    have hidx : simples_bracket_idx 180000 = 0 := by decide
    simp only [compute_simples_tax, hI, hidx]
    norm_num
  · rintro (h | h)
    · simp [compute_simples_tax, h]
    · simp [compute_simples_tax, h]
  · intro tbl hpos htbl
    refine ⟨(simples_bracket_idx_spec revenue).1, (simples_bracket_idx_spec revenue).2, ?_⟩
    simp [compute_simples_tax, htbl, not_le.mpr hpos]

/-- Witness for C1 at revenue 100000, annex I. -/
theorem compute_simples_tax_matches_spec_witness :
    compute_simples_tax 100000 "I" = (4 / 100, 4000) := by
  have h := (compute_simples_tax_matches_spec 100000 "I").2.1
    ⟨[0.04, 0.073, 0.095, 0.107, 0.143, 0.19], [0, 5940, 13860, 22500, 87300, 378000]⟩
    (by norm_num) rfl
  have hidx : simples_bracket_idx 100000 = 0 := by decide
  refine h.2.2.trans ?_
  rw [hidx]
  norm_num

/- ----------------------------------------------------------------------
   Claim C2: schedule_installment_flow conservation
   ---------------------------------------------------------------------- -/

/-- C2 (amended): for a nonnegative amount, a credit percentage in
[0, 100] and an installment count of at least 1,
schedule_installment_flow returns immediate = amount * (1 - pct/100),
adds amount * pct/100 split into n equal pieces at queue offsets 1..n
(leaving offset 0 and offsets beyond n unchanged), and the immediate part
plus everything added to the queue equals the amount exactly.  The
original claim quantified over every amount; it fails for negative
amounts because the source only schedules when the term portion is
strictly positive. -/
theorem schedule_installment_flow_conserves (schedule : List ℚ) (amount pct : ℚ)
    (n : Int) (h0 : 0 ≤ amount) (h1 : 0 ≤ pct) (h2 : pct ≤ 100) (h3 : 1 ≤ n) :
    (schedule_installment_flow schedule amount pct n).1 = amount * (1 - pct / 100) ∧
    (schedule_installment_flow schedule amount pct n).1 +
      ((schedule_installment_flow schedule amount pct n).2.sum - schedule.sum) = amount ∧
    (∀ k : Nat, 1 ≤ k → (k : Int) ≤ n →
      (schedule_installment_flow schedule amount pct n).2.getD k 0 =
        schedule.getD k 0 + amount * (pct / 100) / ((n : ℚ))) ∧
    ((schedule_installment_flow schedule amount pct n).2.getD 0 0 = schedule.getD 0 0) ∧
    (∀ k : Nat, (n : Int) < (k : Int) →
      (schedule_installment_flow schedule amount pct n).2.getD k 0 = schedule.getD k 0) := by
  have hn0 : n ≠ 0 := by omega
  have hpct : min (max pct 0) 100 / 100 = pct / 100 := by
    rw [max_eq_left h1, min_eq_left h2]
  have hni : max (if n = 0 then 1 else n) 1 = n := by
    rw [if_neg hn0]; exact max_eq_left h3
  have hNQ : ((n.toNat : ℚ)) = (n : ℚ) := by
    exact_mod_cast congrArg (Int.cast : ℤ → ℚ) (Int.toNat_of_nonneg (by omega))
  have hNpos : 0 < n.toNat := by omega
  by_cases hP : 0 < amount * (pct / 100)
  · have hsf : schedule_installment_flow schedule amount pct n =
        (amount * (1 - pct / 100),
         (List.range n.toNat).foldl
           (fun s k => addAt s (k + 1) (amount * (pct / 100) / ((n.toNat : ℚ)))) schedule) := by
      simp only [schedule_installment_flow, hpct, hni]
      rw [if_pos hP]
    rw [hsf]
    have hne : ((n.toNat : ℚ)) ≠ 0 := by rw [hNQ]; exact_mod_cast hn0
    refine ⟨rfl, ?_, ?_, ?_, ?_⟩
    · rw [fold_addAt_sum]
      field_simp
      ring
    · intro k hk1 hk2
      rw [fold_addAt_getD, if_pos ⟨hk1, by omega⟩, hNQ]
    · rw [fold_addAt_getD, if_neg (by omega)]
      ring
    · intro k hk
      rw [fold_addAt_getD, if_neg (by omega : ¬ (1 ≤ k ∧ k ≤ n.toNat))]
      ring
  · have hP0 : amount * (pct / 100) = 0 :=
      le_antisymm (not_lt.mp hP) (mul_nonneg h0 (div_nonneg h1 (by norm_num)))
    have hsf : schedule_installment_flow schedule amount pct n =
        (amount * (1 - pct / 100), schedule) := by
      simp only [schedule_installment_flow, hpct, hni]
      rw [if_neg hP]
    rw [hsf]
    refine ⟨rfl, ?_, ?_, rfl, fun k _ => rfl⟩
    · have hexp : amount * (1 - pct / 100) = amount - amount * (pct / 100) := by ring
      rw [hexp, hP0]
      ring
    · intro k _ _
      rw [hP0]
      simp

/-- C2 counterexample: for a negative amount with a 50 percent credit
share, nothing is scheduled and the immediate part alone does not add up
to the amount, so the conservation property fails as universally stated. -/
theorem schedule_installment_flow_counterexample :
    (schedule_installment_flow [0] (-100) 50 1).1 +
      ((schedule_installment_flow [0] (-100) 50 1).2.sum - ([0] : List ℚ).sum) ≠ -100 := by
  simp only [schedule_installment_flow]
  norm_num

/-- Witness for C2 at a concrete nonnegative input. -/
theorem schedule_installment_flow_conserves_witness :
    (schedule_installment_flow [0] 100 50 2).1 +
      ((schedule_installment_flow [0] 100 50 2).2.sum - ([0] : List ℚ).sum) = 100 :=
  (schedule_installment_flow_conserves [0] 100 50 2 (by norm_num) (by norm_num)
    (by norm_num) (by norm_num)).2.1

/- ----------------------------------------------------------------------
   Claim C7: normalize_monthly_series
   ---------------------------------------------------------------------- -/

theorem normalizeAux_length (ml : List (Option MonthlyEntry)) :
    ∀ (k idx : Nat) (lp lq : ℚ), (normalizeAux ml idx k lp lq).length = k := by
  intro k
  induction k with
  | zero => intro idx lp lq; rfl
  | succ m ih =>
    intro idx lp lq
    simp only [normalizeAux, List.length_cons]
    rw [ih]

theorem getD_replicate_point {α : Type} (k i : Nat) (a d : α) (h : i < k) :
    (List.replicate k a).getD i d = a := by
  induction k generalizing i with
  | zero => omega
  | succ m ih =>
    cases i with
    | zero => simp [List.replicate]
    | succ j => simpa [List.replicate] using ih j (by omega)

theorem normalizeAux_all_beyond (ml : List (Option MonthlyEntry)) :
    ∀ (k idx : Nat) (lp lq : ℚ), ml.length ≤ idx →
      normalizeAux ml idx k lp lq = List.replicate k ⟨lp, lq⟩ := by
  intro k
  induction k with
  | zero => intro idx lp lq _; rfl
  | succ m ih =>
    intro idx lp lq h
    have hnone : ml[idx]? = none := List.getElem?_eq_none h
    simp only [normalizeAux, hnone, List.replicate]
    exact congrArg _ (ih (idx + 1) lp lq (by omega))

theorem normalizeAux_succ (ml : List (Option MonthlyEntry)) (idx m : Nat) (lp lq : ℚ) :
    normalizeAux ml idx (m + 1) lp lq =
      normalizeHead ml idx lp lq ::
        normalizeAux ml (idx + 1) m (normalizeHead ml idx lp lq).price
          (normalizeHead ml idx lp lq).qty := by
  cases h : ml[idx]? <;> simp [normalizeAux, normalizeHead, h]

theorem normalizeAux_carry (ml : List (Option MonthlyEntry)) :
    ∀ (k idx : Nat) (lp lq : ℚ) (i : Nat), i < k → 1 ≤ i → ml.length ≤ idx + i →
      (normalizeAux ml idx k lp lq).getD i ⟨0, 0⟩ =
        (normalizeAux ml idx k lp lq).getD (i - 1) ⟨0, 0⟩ := by
  intro k
  induction k with
  | zero => intro idx lp lq i hik; omega
  | succ m ih =>
    intro idx lp lq i hik hi1 hml
    obtain ⟨j, rfl⟩ : ∃ j, i = j + 1 := ⟨i - 1, by omega⟩
    cases j with
    | zero =>
      rw [normalizeAux_succ,
        normalizeAux_all_beyond ml m (idx + 1) _ _ (by omega)]
      simp only [List.getD_cons_succ, List.getD_cons_zero, Nat.add_sub_cancel]
      exact getD_replicate_point m 0 _ _ (by omega)
    | succ j2 =>
      rw [normalizeAux_succ]
      simp only [List.getD_cons_succ, Nat.add_sub_cancel]
      exact ih (idx + 1) _ _ (j2 + 1) (by omega) (by omega) (by omega)

theorem normalizeAux_getD_present (ml : List (Option MonthlyEntry)) :
    ∀ (k idx : Nat) (lp lq : ℚ) (i : Nat), i < k → ∀ p q : ℚ,
      ml[idx + i]? = some (some ⟨some p, some q⟩) →
      (normalizeAux ml idx k lp lq).getD i ⟨0, 0⟩ = ⟨p, q⟩ := by
  intro k
  induction k with
  | zero => intro idx lp lq i hik; omega
  | succ m ih =>
    intro idx lp lq i hik p q hml
    cases i with
    | zero =>
      simp only [Nat.add_zero] at hml
      simp [normalizeAux, hml]
    | succ j =>
      simp only [normalizeAux, List.getD_cons_succ]
      exact ih (idx + 1) _ _ j (by omega) p q (by rw [show idx + 1 + j = idx + (j + 1) by omega]; exact hml)

/-- C7: for a horizon of at least one year, normalize_monthly_series
returns exactly horizon * 12 entries, each a resolved price/qty point;
at an index past the configured list the entry repeats the previous one;
with no configured entries every entry is the product's base price and
quantity; and a fully specified configured entry at index i is copied
verbatim.  The function is total, so it never raises. -/
theorem normalize_monthly_series_spec (s : SessionState) (product_index : Nat)
    (horizon_years : Int) (hy : 1 ≤ horizon_years) :
    (normalize_monthly_series s product_index horizon_years).length =
      horizon_years.toNat * 12 ∧
    (∀ i, 1 ≤ i → i < horizon_years.toNat * 12 →
      (s.revenue_monthly product_index).length ≤ i →
      (normalize_monthly_series s product_index horizon_years).getD i ⟨0, 0⟩ =
        (normalize_monthly_series s product_index horizon_years).getD (i - 1) ⟨0, 0⟩) ∧
    (s.revenue_monthly product_index = [] →
      ∀ i < horizon_years.toNat * 12,
        (normalize_monthly_series s product_index horizon_years).getD i ⟨0, 0⟩ =
          ⟨(s.revenue.getD product_index ⟨none, none, none, none⟩).price.getD 0,
           (s.revenue.getD product_index ⟨none, none, none, none⟩).qty.getD 0⟩) ∧
    (∀ i < horizon_years.toNat * 12, ∀ p q : ℚ,
      (s.revenue_monthly product_index)[i]? = some (some ⟨some p, some q⟩) →
      (normalize_monthly_series s product_index horizon_years).getD i ⟨0, 0⟩ = ⟨p, q⟩) := by
  have hmax : max horizon_years 1 = horizon_years := max_eq_left hy
  simp only [normalize_monthly_series, hmax]
  refine ⟨normalizeAux_length _ _ _ _ _, ?_, ?_, ?_⟩
  · intro i hi1 hiN hml
    exact normalizeAux_carry _ _ 0 _ _ i hiN hi1 (by omega)
  · intro hempty i hiN
    rw [hempty, normalizeAux_all_beyond [] _ 0 _ _ (by simp)]
    exact getD_replicate_point _ i _ _ hiN
  · intro i hiN p q hml
    exact normalizeAux_getD_present _ _ 0 _ _ i hiN p q (by simpa using hml)

/-- Witness for C7 on the concrete plan wState. -/
theorem normalize_monthly_series_spec_witness :
    (normalize_monthly_series wState 0 1).length = 12 ∧
    (normalize_monthly_series wState 0 1).getD 0 ⟨0, 0⟩ = ⟨10, 3⟩ ∧
    (normalize_monthly_series wState 0 1).getD 5 ⟨0, 0⟩ =
      (normalize_monthly_series wState 0 1).getD 4 ⟨0, 0⟩ := by
  have h := normalize_monthly_series_spec wState 0 1 (by norm_num)
  refine ⟨h.1.trans rfl, ?_, ?_⟩
  · exact h.2.2.2 0 (by decide) 10 3 rfl
  · exact h.2.1 5 (by decide) (by decide) (by simp [wState])

/- ----------------------------------------------------------------------
   Claim C9: monotonicity of the effective Simples rate
   ---------------------------------------------------------------------- -/

theorem list6_getD_nonneg (a b c d e f : ℚ) (ha : 0 ≤ a) (hb : 0 ≤ b) (hc : 0 ≤ c)
    (hd : 0 ≤ d) (he : 0 ≤ e) (hf : 0 ≤ f) (j : Nat) :
    0 ≤ ([a, b, c, d, e, f] : List ℚ).getD j 0 := by
  rcases j with _|_|_|_|_|_|j
  · exact ha
  · exact hb
  · exact hc
  · exact hd
  · exact he
  · exact hf
  · exact le_refl 0

theorem tables_facts (annex : String) (tbl : SimplesTable)
    (h : SIMPLIES_TABLES annex = some tbl) :
    (∀ j, 0 ≤ tbl.deductions.getD j 0) ∧
    (∀ j < 4,
      SIMPLIES_THRESHOLDS.getD j 0 * tbl.rates.getD (j + 1) 0 - tbl.deductions.getD (j + 1) 0 =
        SIMPLIES_THRESHOLDS.getD j 0 * tbl.rates.getD j 0 - tbl.deductions.getD j 0) := by
  simp only [SIMPLIES_TABLES] at h
  split_ifs at h <;>
    first
    | exact Option.noConfusion h
    | (injection h with h2
       subst h2
       refine ⟨list6_getD_nonneg _ _ _ _ _ _ (by norm_num) (by norm_num) (by norm_num)
         (by norm_num) (by norm_num) (by norm_num), ?_⟩
       intro j hj
       interval_cases j <;> norm_num [SIMPLIES_THRESHOLDS, List.getD])

theorem simplesRate_eq (tbl : SimplesTable) (j : Nat) (r : ℚ) (hr : 0 < r) :
    simplesRate tbl j r = tbl.rates.getD j 0 - tbl.deductions.getD j 0 / r := by
  unfold simplesRate
  field_simp
  ring

theorem simplesRate_mono_within (tbl : SimplesTable) (j : Nat)
    (hded : 0 ≤ tbl.deductions.getD j 0) (r1 r2 : ℚ) (h1 : 0 < r1) (h12 : r1 ≤ r2) :
    simplesRate tbl j r1 ≤ simplesRate tbl j r2 := by
  rw [simplesRate_eq _ _ _ h1, simplesRate_eq _ _ _ (lt_of_lt_of_le h1 h12)]
  have := div_le_div_of_nonneg_left hded h1 h12
  linarith

theorem thresholds_pos (j : Nat) (hj : j < 6) : 0 < SIMPLIES_THRESHOLDS.getD j 0 := by
  interval_cases j <;> norm_num [SIMPLIES_THRESHOLDS, List.getD]

theorem thresholds_mono_succ (j : Nat) (hj : j < 5) :
    SIMPLIES_THRESHOLDS.getD j 0 ≤ SIMPLIES_THRESHOLDS.getD (j + 1) 0 := by
  interval_cases j <;> norm_num [SIMPLIES_THRESHOLDS, List.getD]

theorem simplesRate_boundary (tbl : SimplesTable)
    (hcont : ∀ j < 4,
      SIMPLIES_THRESHOLDS.getD j 0 * tbl.rates.getD (j + 1) 0 - tbl.deductions.getD (j + 1) 0 =
        SIMPLIES_THRESHOLDS.getD j 0 * tbl.rates.getD j 0 - tbl.deductions.getD j 0)
    (j : Nat) (hj : j < 4) :
    simplesRate tbl (j + 1) (SIMPLIES_THRESHOLDS.getD j 0) =
      simplesRate tbl j (SIMPLIES_THRESHOLDS.getD j 0) := by
  unfold simplesRate
  rw [hcont j hj]

theorem simplesRate_chain (tbl : SimplesTable)
    (hded : ∀ j, 0 ≤ tbl.deductions.getD j 0)
    (hcont : ∀ j < 4,
      SIMPLIES_THRESHOLDS.getD j 0 * tbl.rates.getD (j + 1) 0 - tbl.deductions.getD (j + 1) 0 =
        SIMPLIES_THRESHOLDS.getD j 0 * tbl.rates.getD j 0 - tbl.deductions.getD j 0)
    (j k : Nat) (hjk : j ≤ k) (hk4 : k ≤ 4) :
    simplesRate tbl j (SIMPLIES_THRESHOLDS.getD j 0) ≤
      simplesRate tbl k (SIMPLIES_THRESHOLDS.getD k 0) := by
  induction k, hjk using Nat.le_induction with
  | base => exact le_refl _
  | succ k hjk ih =>
    refine le_trans (ih (by omega)) ?_
    calc simplesRate tbl k (SIMPLIES_THRESHOLDS.getD k 0)
        = simplesRate tbl (k + 1) (SIMPLIES_THRESHOLDS.getD k 0) :=
          (simplesRate_boundary tbl hcont k (by omega)).symm
      _ ≤ simplesRate tbl (k + 1) (SIMPLIES_THRESHOLDS.getD (k + 1) 0) :=
          simplesRate_mono_within tbl (k + 1) (hded (k + 1)) _ _
            (thresholds_pos k (by omega)) (thresholds_mono_succ k (by omega))

theorem simples_bracket_idx_le_4 (r : ℚ) (hr : r ≤ 3600000) : simples_bracket_idx r ≤ 4 := by
  rw [simples_bracket_idx_eq]
  split_ifs with h1 h2 h3 h4 h5 <;> first | norm_num | exact absurd hr h5

theorem simples_bracket_idx_mono (r1 r2 : ℚ) (h : r1 ≤ r2) :
    simples_bracket_idx r1 ≤ simples_bracket_idx r2 := by
  rw [simples_bracket_idx_eq, simples_bracket_idx_eq]
  split_ifs <;> first | omega | (exfalso; linarith)

theorem simples_bracket_idx_eq_5 (r : ℚ) (hr : 3600000 < r) : simples_bracket_idx r = 5 := by
  rw [simples_bracket_idx_eq]
  split_ifs <;> first | rfl | (exfalso; linarith)

theorem compute_simples_tax_fst (r : ℚ) (annex : String) (tbl : SimplesTable) (hr : 0 < r)
    (h : SIMPLIES_TABLES annex = some tbl) :
    (compute_simples_tax r annex).1 = max (simplesRate tbl (simples_bracket_idx r) r) 0 := by
  simp [compute_simples_tax, h, not_le.mpr hr, simplesRate]

theorem simplesRate_le_of_le (tbl : SimplesTable)
    (hded : ∀ j, 0 ≤ tbl.deductions.getD j 0)
    (hcont : ∀ j < 4,
      SIMPLIES_THRESHOLDS.getD j 0 * tbl.rates.getD (j + 1) 0 - tbl.deductions.getD (j + 1) 0 =
        SIMPLIES_THRESHOLDS.getD j 0 * tbl.rates.getD j 0 - tbl.deductions.getD j 0)
    (r1 r2 : ℚ) (h1 : 0 < r1) (h12 : r1 < r2) (h2 : r2 ≤ 3600000) :
    simplesRate tbl (simples_bracket_idx r1) r1 ≤
      simplesRate tbl (simples_bracket_idx r2) r2 := by
  have hj14 : simples_bracket_idx r1 ≤ 4 := simples_bracket_idx_le_4 r1 (by linarith)
  have hj24 : simples_bracket_idx r2 ≤ 4 := simples_bracket_idx_le_4 r2 h2
  have hjm : simples_bracket_idx r1 ≤ simples_bracket_idx r2 :=
    simples_bracket_idx_mono r1 r2 (le_of_lt h12)
  have hspec1 := (simples_bracket_idx_spec r1).1 (by linarith)
  have hspec2 := (simples_bracket_idx_spec r2).1 (by linarith)
  rcases eq_or_lt_of_le hjm with heq | hlt
  · rw [← heq]
    exact simplesRate_mono_within tbl _ (hded _) r1 r2 h1 (le_of_lt h12)
  · have hT1 : r1 ≤ SIMPLIES_THRESHOLDS.getD (simples_bracket_idx r1) 0 := hspec1.1
    have hTj2m1 : SIMPLIES_THRESHOLDS.getD (simples_bracket_idx r2 - 1) 0 < r2 :=
      hspec2.2 (simples_bracket_idx r2 - 1) (by omega)
    have step1 := simplesRate_mono_within tbl (simples_bracket_idx r1) (hded _) r1 _ h1 hT1
    have step2 := simplesRate_chain tbl hded hcont (simples_bracket_idx r1)
      (simples_bracket_idx r2 - 1) (by omega) (by omega)
    have step3 : simplesRate tbl (simples_bracket_idx r2 - 1)
        (SIMPLIES_THRESHOLDS.getD (simples_bracket_idx r2 - 1) 0) =
        simplesRate tbl (simples_bracket_idx r2)
          (SIMPLIES_THRESHOLDS.getD (simples_bracket_idx r2 - 1) 0) := by
      have hb := simplesRate_boundary tbl hcont (simples_bracket_idx r2 - 1) (by omega)
      rw [show simples_bracket_idx r2 - 1 + 1 = simples_bracket_idx r2 by omega] at hb
      exact hb.symm
    have step4 := simplesRate_mono_within tbl (simples_bracket_idx r2) (hded _) _ r2
      (thresholds_pos (simples_bracket_idx r2 - 1) (by omega)) (le_of_lt hTj2m1)
    linarith

/-- C9 (amended): for a fixed annex the effective rate returned by
compute_simples_tax is non-decreasing in the revenue as long as the two
revenues do not straddle the 3600000 threshold: it holds whenever both
are at most 3600000 or both are above it.  The original unrestricted
claim is false: the rate drops when the revenue crosses from the fifth
into the sixth bracket. -/
theorem compute_simples_tax_rate_monotone (annex : String) (r1 r2 : ℚ)
    (h1 : 0 < r1) (h12 : r1 < r2) (hcross : r2 ≤ 3600000 ∨ 3600000 < r1) :
    (compute_simples_tax r1 annex).1 ≤ (compute_simples_tax r2 annex).1 := by
  have h2 : 0 < r2 := lt_trans h1 h12
  cases htbl : SIMPLIES_TABLES annex with
  | none => simp [compute_simples_tax, htbl]
  | some tbl =>
    have hfacts := tables_facts annex tbl htbl
    rw [compute_simples_tax_fst r1 annex tbl h1 htbl,
      compute_simples_tax_fst r2 annex tbl h2 htbl]
    rcases hcross with hc | hc
    · exact max_le_max (simplesRate_le_of_le tbl hfacts.1 hfacts.2 r1 r2 h1 h12 hc) (le_refl 0)
    · rw [simples_bracket_idx_eq_5 r1 hc, simples_bracket_idx_eq_5 r2 (by linarith)]
      exact max_le_max (simplesRate_mono_within tbl 5 (hfacts.1 5) r1 r2 h1 (le_of_lt h12))
        (le_refl 0)

/-- C9 counterexample: for annex I the effective rate at revenue 4000000
(sixth bracket, 9.55 percent) is strictly below the rate at revenue
3600000 (fifth bracket, 11.875 percent), so the rate is not non-decreasing
across the 3600000 threshold. -/
theorem compute_simples_tax_rate_counterexample :
    (compute_simples_tax 4000000 "I").1 < (compute_simples_tax 3600000 "I").1 := by
  have hI : SIMPLIES_TABLES "I" =
      some ⟨[0.04, 0.073, 0.095, 0.107, 0.143, 0.19], [0, 5940, 13860, 22500, 87300, 378000]⟩ := rfl
  have h4 : simples_bracket_idx 3600000 = 4 := by
    rw [simples_bracket_idx_eq]; norm_num
  have h5 : simples_bracket_idx 4000000 = 5 := by
    rw [simples_bracket_idx_eq]; norm_num
  rw [compute_simples_tax_fst 4000000 "I" _ (by norm_num) hI,
    compute_simples_tax_fst 3600000 "I" _ (by norm_num) hI, h4, h5]
  norm_num [simplesRate, List.getD]

/-- Witness for C9 (amended) at two revenues inside the first bracket. -/
theorem compute_simples_tax_rate_monotone_witness :
    (compute_simples_tax 100000 "I").1 ≤ (compute_simples_tax 200000 "I").1 :=
  compute_simples_tax_rate_monotone "I" 100000 200000 (by norm_num) (by norm_num)
    (Or.inl (by norm_num))

/- ----------------------------------------------------------------------
   Claim C8: compute_payback
   ---------------------------------------------------------------------- -/

theorem payback_simple_loop_none_char :
    ∀ (l : List ℚ) (i : Nat) (cum : ℚ), payback_simple_loop l i cum = none →
      ∀ j < l.length, cum + (l.take (j + 1)).sum < 0 := by
  intro l
  induction l with
  | nil => intro i cum _ j hj; simp at hj
  | cons cf rest ih =>
    intro i cum h j hj
    simp only [payback_simple_loop] at h
    by_cases h0 : 0 ≤ cum + cf
    · rw [if_pos h0] at h; exact Option.noConfusion h
    · rw [if_neg h0] at h
      cases j with
      | zero => simpa using not_le.mp h0
      | succ j2 =>
        have := ih (i + 1) (cum + cf) h j2 (by simpa using hj)
        simp only [List.take_succ_cons, List.sum_cons]
        linarith

theorem payback_simple_loop_some_char :
    ∀ (l : List ℚ) (i : Nat) (cum : ℚ) (t : Nat), payback_simple_loop l i cum = some t →
      ∃ j, j < l.length ∧ t = i + j ∧ 0 ≤ cum + (l.take (j + 1)).sum ∧
        ∀ j2 < j, cum + (l.take (j2 + 1)).sum < 0 := by
  intro l
  induction l with
  | nil => intro i cum t h; exact Option.noConfusion h
  | cons cf rest ih =>
    intro i cum t h
    simp only [payback_simple_loop] at h
    by_cases h0 : 0 ≤ cum + cf
    · rw [if_pos h0] at h
      injection h with ht
      refine ⟨0, by simp, by omega, by simpa using h0, by omega⟩
    · rw [if_neg h0] at h
      obtain ⟨j, hjlen, hteq, hge, hlt⟩ := ih (i + 1) (cum + cf) t h
      refine ⟨j + 1, by simpa using hjlen, by omega, ?_, ?_⟩
      · simp only [List.take_succ_cons, List.sum_cons]
        linarith
      · intro j2 hj2
        cases j2 with
        | zero => simpa using not_le.mp h0
        | succ j3 =>
          have := hlt j3 (by omega)
          simp only [List.take_succ_cons, List.sum_cons]
          linarith

theorem payback_discounted_loop_ex (r : ℚ) (hr : 1 + r ≠ 0) :
    ∀ (l : List ℚ) (i : Nat) (cum : ℚ), ∃ d, payback_discounted_loop r l i cum = some d := by
  intro l
  induction l with
  | nil => intro i cum; exact ⟨none, rfl⟩
  | cons cf rest ih =>
    intro i cum
    have hpow : (1 + r) ^ i ≠ 0 := pow_ne_zero i hr
    simp only [payback_discounted_loop, if_neg hpow]
    by_cases h0 : 0 ≤ cum + cf / (1 + r) ^ i
    · exact ⟨some i, by rw [if_pos h0]⟩
    · rw [if_neg h0]
      exact ih (i + 1) _

theorem payback_discounted_loop_none_char (r : ℚ) (hr : 1 + r ≠ 0) :
    ∀ (l : List ℚ) (i : Nat) (cum : ℚ), payback_discounted_loop r l i cum = some none →
      ∀ j < l.length,
        cum + ∑ j2 ∈ Finset.range (j + 1), l.getD j2 0 / (1 + r) ^ (i + j2) < 0 := by
  intro l
  induction l with
  | nil => intro i cum _ j hj; simp at hj
  | cons cf rest ih =>
    intro i cum h j hj
    have hpow : (1 + r) ^ i ≠ 0 := pow_ne_zero i hr
    simp only [payback_discounted_loop, if_neg hpow] at h
    by_cases h0 : 0 ≤ cum + cf / (1 + r) ^ i
    · rw [if_pos h0] at h
      injection h with h2
      exact Option.noConfusion h2
    · rw [if_neg h0] at h
      cases j with
      | zero => simpa using not_le.mp h0
      | succ j2 =>
        have hrec := ih (i + 1) (cum + cf / (1 + r) ^ i) h j2 (by simpa using hj)
        rw [Finset.sum_range_succ']
        have hexp : ∀ m : Nat, i + 1 + m = i + (m + 1) := fun m => by omega
        simp only [hexp] at hrec
        simp only [List.getD_cons_succ, List.getD_cons_zero, Nat.add_zero]
        linarith

theorem payback_discounted_loop_some_char (r : ℚ) (hr : 1 + r ≠ 0) :
    ∀ (l : List ℚ) (i : Nat) (cum : ℚ) (t : Nat),
      payback_discounted_loop r l i cum = some (some t) →
      ∃ j, j < l.length ∧ t = i + j ∧
        0 ≤ cum + ∑ j2 ∈ Finset.range (j + 1), l.getD j2 0 / (1 + r) ^ (i + j2) ∧
        ∀ j3 < j, cum + ∑ j2 ∈ Finset.range (j3 + 1), l.getD j2 0 / (1 + r) ^ (i + j2) < 0 := by
  intro l
  induction l with
  | nil =>
    intro i cum t h
    injection h with h2
    exact Option.noConfusion h2
  | cons cf rest ih =>
    intro i cum t h
    have hpow : (1 + r) ^ i ≠ 0 := pow_ne_zero i hr
    simp only [payback_discounted_loop, if_neg hpow] at h
    by_cases h0 : 0 ≤ cum + cf / (1 + r) ^ i
    · rw [if_pos h0] at h
      injection h with h2
      injection h2 with ht
      refine ⟨0, by simp, by omega, ?_, by omega⟩
      simpa using h0
    · rw [if_neg h0] at h
      obtain ⟨j, hjlen, hteq, hge, hlt⟩ := ih (i + 1) (cum + cf / (1 + r) ^ i) t h
      have hexp : ∀ m : Nat, i + 1 + m = i + (m + 1) := fun m => by omega
      simp only [hexp] at hge hlt
      refine ⟨j + 1, by simpa using hjlen, by omega, ?_, ?_⟩
      · rw [Finset.sum_range_succ']
        simp only [List.getD_cons_succ, List.getD_cons_zero, Nat.add_zero]
        linarith
      · intro j3 hj3
        cases j3 with
        | zero => simpa using not_le.mp h0
        | succ j4 =>
          have := hlt j4 (by omega)
          rw [Finset.sum_range_succ']
          simp only [List.getD_cons_succ, List.getD_cons_zero, Nat.add_zero]
          linarith

/-- C8 (amended): for every discount rate other than -1, compute_payback
returns a pair whose simple component is the first index at which the
running sum of the raw flows becomes nonnegative (absent if never within
the list) and whose discounted component is the first index at which the
running sum of the discounted flows becomes nonnegative (absent if
never); for flows [-1000, 400, 400, 400] the simple payback is index 3.
The original claim also covered rate -1, where the source instead raises
ZeroDivisionError while discounting (modelled as the outer none). -/
theorem compute_payback_spec (flows : List ℚ) (r : ℚ) (hr : 1 + r ≠ 0) :
    (∃ p d, compute_payback flows r = some (p, d) ∧
      (∀ t, p = some t → t < flows.length ∧ 0 ≤ (flows.take (t + 1)).sum ∧
        ∀ t2 < t, (flows.take (t2 + 1)).sum < 0) ∧
      (p = none → ∀ t < flows.length, (flows.take (t + 1)).sum < 0) ∧
      (∀ t, d = some t → t < flows.length ∧ 0 ≤ discCumSum r flows (t + 1) ∧
        ∀ t2 < t, discCumSum r flows (t2 + 1) < 0) ∧
      (d = none → ∀ t < flows.length, discCumSum r flows (t + 1) < 0)) ∧
    compute_payback [-1000, 400, 400, 400] 0 = some (some 3, some 3) := by
  constructor
  · obtain ⟨d, hd⟩ := payback_discounted_loop_ex r hr flows 0 0
    refine ⟨payback_simple_loop flows 0 0, d, ?_, ?_, ?_, ?_, ?_⟩
    · simp only [compute_payback, hd]
    · intro t ht
      obtain ⟨j, hjlen, hteq, hge, hlt⟩ := payback_simple_loop_some_char flows 0 0 t ht
      subst hteq
      simp only [Nat.zero_add]
      refine ⟨hjlen, by simpa using hge, fun t2 h2 => by simpa using hlt t2 h2⟩
    · intro ht t htlen
      simpa using payback_simple_loop_none_char flows 0 0 ht t htlen
    · intro t ht
      subst ht
      obtain ⟨j, hjlen, hteq, hge, hlt⟩ := payback_discounted_loop_some_char r hr flows 0 0 t hd
      subst hteq
      simp only [Nat.zero_add]
      refine ⟨hjlen, ?_, ?_⟩
      · simpa [discCumSum] using hge
      · intro t2 h2
        simpa [discCumSum] using hlt t2 h2
    · intro hdn t htlen
      subst hdn
      simpa [discCumSum] using payback_discounted_loop_none_char r hr flows 0 0 hd t htlen
  · norm_num [compute_payback, payback_discounted_loop, payback_simple_loop]

/-- C8 counterexample: at discount rate -1 the source raises
ZeroDivisionError in the discounted loop instead of returning the payback
pair the claim describes (the embedding returns none on that path). -/
theorem compute_payback_counterexample :
    compute_payback [-1000, 400, 400, 400] (-1) = none := by
  norm_num [compute_payback, payback_discounted_loop, payback_simple_loop]

/-- Witness for C8: the seed example evaluated through the theorem. -/
theorem compute_payback_spec_witness :
    compute_payback [-1000, 400, 400, 400] 0 = some (some 3, some 3) :=
  (compute_payback_spec [] 0 (by norm_num)).2

/- ----------------------------------------------------------------------
   Claim C6: compute_mirr
   ---------------------------------------------------------------------- -/

theorem mirr_pv_neg_of_no_neg (fr : ℚ) :
    ∀ (l : List ℚ) (t : Nat), (∀ x ∈ l, 0 ≤ x) → mirr_pv_neg fr l t = some 0 := by
  intro l
  induction l with
  | nil => intro t _; rfl
  | cons cf rest ih =>
    intro t hall
    have hcf : ¬ cf < 0 := not_lt.mpr (hall cf (by simp))
    simp only [mirr_pv_neg, ih (t + 1) (fun x hx => hall x (by simp [hx])), if_neg hcf]

theorem mirr_pv_neg_of_nonpos (fr : ℚ) (hfr : 0 < 1 + fr) :
    ∀ (l : List ℚ) (t : Nat), (∀ x ∈ l, x ≤ 0) →
      ∃ pv, mirr_pv_neg fr l t = some pv ∧ pv ≤ 0 ∧ ((∃ x ∈ l, x < 0) → pv < 0) := by
  intro l
  induction l with
  | nil =>
    intro t _
    exact ⟨0, rfl, le_refl 0, by simp⟩
  | cons cf rest ih =>
    intro t hall
    obtain ⟨pv, hpv, hle, himp⟩ := ih (t + 1) (fun x hx => hall x (by simp [hx]))
    have hpow : 0 < (1 + fr) ^ t := pow_pos hfr t
    by_cases hcf : cf < 0
    · refine ⟨cf / (1 + fr) ^ t + pv, ?_, ?_, ?_⟩
      · simp only [mirr_pv_neg, hpv, if_pos hcf, if_neg (ne_of_gt hpow)]
      · have : cf / (1 + fr) ^ t < 0 := div_neg_of_neg_of_pos hcf hpow
        linarith
      · intro _
        have : cf / (1 + fr) ^ t < 0 := div_neg_of_neg_of_pos hcf hpow
        linarith
    · refine ⟨pv, ?_, hle, ?_⟩
      · simp only [mirr_pv_neg, hpv, if_neg hcf]
      · rintro ⟨x, hx, hxneg⟩
        rcases List.mem_cons.mp hx with rfl | hx2
        · exact absurd hxneg hcf
        · exact himp ⟨x, hx2, hxneg⟩

theorem mirr_fv_pos_of_no_pos (rr : ℚ) (n : Nat) :
    ∀ (l : List ℚ) (t : Nat), (∀ x ∈ l, x ≤ 0) → mirr_fv_pos rr n l t = 0 := by
  intro l
  induction l with
  | nil => intro t _; rfl
  | cons cf rest ih =>
    intro t hall
    have hcf : ¬ 0 < cf := not_lt.mpr (hall cf (by simp))
    simp only [mirr_fv_pos, ih (t + 1) (fun x hx => hall x (by simp [hx])), if_neg hcf, add_zero]

/-- C6 (amended): for a flow list of length at least 2, compute_mirr
returns None when the list has no negative flow (the discounted negative
total is zero); but when the list has no positive flow and does contain a
negative one (with finance rate above -1, so the source does not raise),
it returns the numeric rate -1 rather than None as originally claimed. -/
theorem compute_mirr_spec (flows : List ℚ) (fr rr : ℚ) (hlen : 2 ≤ flows.length) :
    ((∀ x ∈ flows, 0 ≤ x) → compute_mirr flows fr rr = some none) ∧
    ((∀ x ∈ flows, x ≤ 0) → (∃ x ∈ flows, x < 0) → -1 < fr →
      compute_mirr flows fr rr = some (some (-1))) := by
  have hnotshort : ¬ flows.length ≤ 1 := by omega
  constructor
  · intro hall
    simp [compute_mirr, if_neg hnotshort, mirr_pv_neg_of_no_neg fr flows 0 hall]
  · intro hall hex hfr
    obtain ⟨pv, hpv, _, himp⟩ :=
      mirr_pv_neg_of_nonpos fr (by linarith) flows 0 hall
    have hpvneg : pv < 0 := himp hex
    have hfv : mirr_fv_pos rr (flows.length - 1) flows 0 = 0 :=
      mirr_fv_pos_of_no_pos rr (flows.length - 1) flows 0 hall
    have hnR : (0 : ℝ) < ((flows.length - 1 : Nat) : ℝ) := by
      have : 1 ≤ flows.length - 1 := by omega
      exact_mod_cast Nat.lt_of_lt_of_le Nat.zero_lt_one this
    simp only [compute_mirr, if_neg hnotshort, hpv, if_neg (ne_of_lt hpvneg), hfv]
    have hbase : ((0 / -pv : ℚ) : ℝ) = 0 := by
      rw [zero_div]
      exact Rat.cast_zero
    rw [hbase, Real.zero_rpow (by positivity), zero_sub]

/-- C6 counterexample: flows [-100, 0] have no positive flow, yet
compute_mirr returns the numeric rate -1, not None. -/
theorem compute_mirr_counterexample :
    compute_mirr [-100, 0] 0 0 = some (some (-1)) := by
  have h1 : mirr_pv_neg 0 [-100, 0] 0 = some (-100) := by
    norm_num [mirr_pv_neg]
  have h2 : mirr_fv_pos 0 1 [-100, 0] 0 = 0 := by
    norm_num [mirr_fv_pos]
  simp only [compute_mirr, List.length_cons, List.length_nil, h1, h2]
  norm_num [Real.rpow_one]

/-- Witness for C6 on the all-zero flow list. -/
theorem compute_mirr_spec_witness : compute_mirr [0, 0] 0 0 = some none :=
  (compute_mirr_spec [0, 0] 0 0 (by norm_num)).1 (by simp)

/- ----------------------------------------------------------------------
   Shared lemmas for the monthly engine (claims C3 and C4)
   ---------------------------------------------------------------------- -/

theorem getD_map_range {α : Type} (n : Nat) (f : Nat → α) (j : Nat) (d : α) (hj : j < n) :
    ((List.range n).map f).getD j d = f j := by
  rw [List.getD_eq_getElem?_getD, List.getElem?_map, List.getElem?_range hj]
  rfl

theorem list_range_map_sum (n : Nat) (f : Nat → ℚ) :
    ((List.range n).map f).sum = ∑ i ∈ Finset.range n, f i := by
  induction n with
  | zero => simp
  | succ m ih =>
    rw [List.range_succ, List.map_append, List.sum_append, Finset.sum_range_succ, ih]
    simp

theorem horizonOf_pos (s : SessionState) : 1 ≤ horizonOf s := by
  unfold horizonOf
  omega

theorem normalize_monthly_series_len (s : SessionState) (pi : Nat) (hy : Int) :
    (normalize_monthly_series s pi hy).length = (max hy 1).toNat * 12 := by
  simp [normalize_monthly_series, normalizeAux_length]

theorem normalize_len_of_nat (s : SessionState) (pi n : Nat) (hn : 1 ≤ n) :
    (normalize_monthly_series s pi (n : Int)).length = n * 12 := by
  rw [normalize_monthly_series_len]
  have h1 : max (n : Int) 1 = (n : Int) := max_eq_left (by exact_mod_cast hn)
  rw [h1, Int.toNat_natCast]

theorem monthsPerYear_eq_12 (n : Nat) (hn : 1 ≤ n) : monthsPerYear n (n * 12) = 12 := by
  unfold monthsPerYear
  rw [Nat.mul_div_cancel_left 12 (by omega)]
  rfl

theorem monthlyLoop_length (step : Nat → QueueState → MonthlyRow × QueueState) :
    ∀ (k m : Nat) (qs : QueueState), (monthlyLoop step m k qs).length = k := by
  intro k
  induction k with
  | zero => intro m qs; rfl
  | succ j ih =>
    intro m qs
    simp only [monthlyLoop, List.length_cons]
    rw [ih]

theorem monthlyLoop_field (step : Nat → QueueState → MonthlyRow × QueueState)
    (f : MonthlyRow → ℚ) (g : Nat → ℚ) (hstep : ∀ m qs, f (step m qs).1 = g m) :
    ∀ (k m : Nat) (qs : QueueState) (j : Nat), j < k →
      f ((monthlyLoop step m k qs).getD j default) = g (m + j) := by
  intro k
  induction k with
  | zero => intro m qs j hj; omega
  | succ k2 ih =>
    intro m qs j hj
    cases j with
    | zero =>
      simp only [monthlyLoop, List.getD_cons_zero, Nat.add_zero]
      exact hstep m qs
    | succ j2 =>
      simp only [monthlyLoop, List.getD_cons_succ]
      rw [ih (m + 1) _ j2 (by omega)]
      congr 1
      omega

theorem productStep_fold_revenue (s : SessionState) (variation : ℚ)
    (monthlyOf : Nat → List MonthlyPoint) (m : Nat) :
    ∀ (L : List Nat) (acc : MonthAcc),
      (L.foldl (productStep s variation monthlyOf m) acc).revenue_m =
        acc.revenue_m + (L.map (fun i =>
          ((monthlyOf i).getD m ⟨0, 0⟩).price *
            (((monthlyOf i).getD m ⟨0, 0⟩).qty * variation))).sum := by
  intro L
  induction L with
  | nil => intro acc; simp
  | cons a L2 ih =>
    intro acc
    simp only [List.foldl_cons, List.map_cons, List.sum_cons, ih]
    have hstep : (productStep s variation monthlyOf m acc a).revenue_m =
        acc.revenue_m + ((monthlyOf a).getD m ⟨0, 0⟩).price *
          (((monthlyOf a).getD m ⟨0, 0⟩).qty * variation) := rfl
    rw [hstep]
    ring

theorem monthStep_receita (s : SessionState) (variation : ℚ)
    (monthlyOf : Nat → List MonthlyPoint) (horizon : Nat) (effRates : Nat → ℚ)
    (investMonthly : List ℚ) (loan_amount loan_payment_ann : ℚ) (years : Int)
    (fixed_month : ℚ) (m : Nat) (qs : QueueState) :
    (monthStep s variation monthlyOf horizon effRates investMonthly loan_amount
        loan_payment_ann years fixed_month m qs).1.receita =
      ((List.range s.revenue.length).map (fun i =>
        ((monthlyOf i).getD m ⟨0, 0⟩).price *
          (((monthlyOf i).getD m ⟨0, 0⟩).qty * variation))).sum := by
  have h := productStep_fold_revenue s variation monthlyOf m (List.range s.revenue.length)
    ⟨0, 0, 0, (pop_scheduled_amount qs.varQ).1, qs.revQueues, (pop_scheduled_amount qs.varQ).2⟩
  simp only [monthStep]
  rw [h]
  ring

theorem monthStep_cfInvestimento (s : SessionState) (variation : ℚ)
    (monthlyOf : Nat → List MonthlyPoint) (horizon : Nat) (effRates : Nat → ℚ)
    (investMonthly : List ℚ) (loan_amount loan_payment_ann : ℚ) (years : Int)
    (fixed_month : ℚ) (m : Nat) (qs : QueueState) :
    (monthStep s variation monthlyOf horizon effRates investMonthly loan_amount
        loan_payment_ann years fixed_month m qs).1.cfInvestimento =
      investMonthly.getD m 0 := rfl

theorem compute_monthly_details_receita (s : SessionState) (variation : ℚ) (m : Nat)
    (hm : m < horizonOf s * 12) :
    ((compute_monthly_details s variation).1.getD m default).receita =
      ((List.range s.revenue.length).map (fun i =>
        ((normalize_monthly_series s i ((horizonOf s : Nat) : Int)).getD m ⟨0, 0⟩).price *
          (((normalize_monthly_series s i ((horizonOf s : Nat) : Int)).getD m ⟨0, 0⟩).qty *
            variation))).sum := by
  simp only [compute_monthly_details]
  have h := monthlyLoop_field _ MonthlyRow.receita _
    (fun m2 qs => monthStep_receita s variation
      (fun i => normalize_monthly_series s i ((horizonOf s : Nat) : Int)) (horizonOf s)
      (fun yr => (compute_simples_tax
        (revenueYearForTax s variation
          (fun i => normalize_monthly_series s i ((horizonOf s : Nat) : Int)) (horizonOf s) yr)
        s.tax_annex).1)
      (investmentsMonthly s (horizonOf s * 12)) (s.financing.amount.getD 0)
      (loanPaymentAnnual (s.financing.amount.getD 0) (s.financing.rate.getD 0 / 100)
        (s.financing.years.getD 0))
      (s.financing.years.getD 0) (fixedMonthTotal s) m2 qs)
    (horizonOf s * 12) 0 ⟨List.replicate s.revenue.length [0], [0], [0]⟩ m hm
  simpa using h

theorem compute_monthly_details_cfInvestimento (s : SessionState) (variation : ℚ) (m : Nat)
    (hm : m < horizonOf s * 12) :
    ((compute_monthly_details s variation).1.getD m default).cfInvestimento =
      (investmentsMonthly s (horizonOf s * 12)).getD m 0 := by
  simp only [compute_monthly_details]
  have h := monthlyLoop_field _ MonthlyRow.cfInvestimento _
    (fun m2 qs => monthStep_cfInvestimento s variation
      (fun i => normalize_monthly_series s i ((horizonOf s : Nat) : Int)) (horizonOf s)
      (fun yr => (compute_simples_tax
        (revenueYearForTax s variation
          (fun i => normalize_monthly_series s i ((horizonOf s : Nat) : Int)) (horizonOf s) yr)
        s.tax_annex).1)
      (investmentsMonthly s (horizonOf s * 12)) (s.financing.amount.getD 0)
      (loanPaymentAnnual (s.financing.amount.getD 0) (s.financing.rate.getD 0 / 100)
        (s.financing.years.getD 0))
      (s.financing.years.getD 0) (fixedMonthTotal s) m2 qs)
    (horizonOf s * 12) 0 ⟨List.replicate s.revenue.length [0], [0], [0]⟩ m hm
  simpa using h

theorem compute_projections_receita (s : SessionState) (variation : ℚ) (y : Nat)
    (hy : y < horizonOf s) :
    ((compute_projections s variation).1.getD (y + 1) default).receita =
      (∑ i ∈ Finset.range s.revenue.length,
        prodYearSum (normalize_monthly_series s i ((horizonOf s : Nat) : Int))
          (monthsPerYear (horizonOf s)
            (normalize_monthly_series s i ((horizonOf s : Nat) : Int)).length)
          (horizonOf s) y (fun p => p.price * p.qty)) * variation := by
  simp only [compute_projections]
  rw [getD_map_range (horizonOf s + 1) _ (y + 1) default (by omega)]
  rw [if_neg (Nat.succ_ne_zero y)]
  simp

/-- The months of operating year y inside the horizon: the bucket filter
min(m / 12, n - 1) = y over all months coincides with the 12-month window
starting at 12 * y. -/
theorem year_window_sum (n y : Nat) (hy : y < n) (f : Nat → ℚ) :
    (∑ m ∈ Finset.range (n * 12), if min (m / 12) (n - 1) = y then f m else 0) =
      ∑ k ∈ Finset.range 12, f (12 * y + k) := by
  have hcond : ∀ m ∈ Finset.range (n * 12),
      (if min (m / 12) (n - 1) = y then f m else 0) = (if m / 12 = y then f m else 0) := by
    intro m hm
    rw [Finset.mem_range] at hm
    rw [min_eq_left (by omega)]
  rw [Finset.sum_congr rfl hcond, ← Finset.sum_filter]
  have hfilter : (Finset.range (n * 12)).filter (fun m => m / 12 = y) =
      Finset.Ico (12 * y) (12 * y + 12) := by
    ext m
    simp only [Finset.mem_filter, Finset.mem_range, Finset.mem_Ico]
    omega
  rw [hfilter, Finset.sum_Ico_eq_sum_range]
  simp

/-- C3: for every plan state, variation factor and operating year y of
the horizon, the sum of the 12 monthly accrual revenues of year y
produced by compute_monthly_details equals the annual revenue of the
(y + 1)-st ProjectionYear produced by compute_projections. -/
theorem monthly_annual_revenue_consistency (s : SessionState) (variation : ℚ) (y : Nat)
    (hy : y < horizonOf s) :
    (∑ k ∈ Finset.range 12,
        ((compute_monthly_details s variation).1.getD (12 * y + k) default).receita) =
      ((compute_projections s variation).1.getD (y + 1) default).receita := by
  have hn1 : 1 ≤ horizonOf s := horizonOf_pos s
  have hlen : ∀ i, (normalize_monthly_series s i ((horizonOf s : Nat) : Int)).length =
      horizonOf s * 12 := fun i => normalize_len_of_nat s i (horizonOf s) hn1
  rw [compute_projections_receita s variation y hy]
  have hrhs : ∀ i ∈ Finset.range s.revenue.length,
      prodYearSum (normalize_monthly_series s i ((horizonOf s : Nat) : Int))
        (monthsPerYear (horizonOf s)
          (normalize_monthly_series s i ((horizonOf s : Nat) : Int)).length)
        (horizonOf s) y (fun p => p.price * p.qty) =
      ∑ k ∈ Finset.range 12,
        ((normalize_monthly_series s i ((horizonOf s : Nat) : Int)).getD (12 * y + k)
          ⟨0, 0⟩).price *
        ((normalize_monthly_series s i ((horizonOf s : Nat) : Int)).getD (12 * y + k)
          ⟨0, 0⟩).qty := by
    intro i _
    unfold prodYearSum
    rw [hlen i, monthsPerYear_eq_12 (horizonOf s) hn1]
    exact year_window_sum (horizonOf s) y hy _
  rw [Finset.sum_congr rfl hrhs]
  have hlhs : ∀ k ∈ Finset.range 12,
      ((compute_monthly_details s variation).1.getD (12 * y + k) default).receita =
      ∑ i ∈ Finset.range s.revenue.length,
        ((normalize_monthly_series s i ((horizonOf s : Nat) : Int)).getD (12 * y + k)
          ⟨0, 0⟩).price *
        (((normalize_monthly_series s i ((horizonOf s : Nat) : Int)).getD (12 * y + k)
          ⟨0, 0⟩).qty * variation) := by
    intro k hk
    rw [Finset.mem_range] at hk
    rw [compute_monthly_details_receita s variation (12 * y + k) (by omega)]
    exact list_range_map_sum _ _
  rw [Finset.sum_congr rfl hlhs, Finset.sum_comm, Finset.sum_mul]
  refine Finset.sum_congr rfl fun i _ => ?_
  rw [Finset.sum_mul]
  refine Finset.sum_congr rfl fun k _ => ?_
  ring

/-- Witness for C3 on the concrete plan wState at year 0. -/
theorem monthly_annual_revenue_consistency_witness :
    (∑ k ∈ Finset.range 12,
        ((compute_monthly_details wState 1).1.getD (12 * 0 + k) default).receita) =
      ((compute_projections wState 1).1.getD (0 + 1) default).receita :=
  monthly_annual_revenue_consistency wState 1 0 (by decide)

/- ----------------------------------------------------------------------
   Claim C4: monthly investment cash outflows
   ---------------------------------------------------------------------- -/

theorem investments_fold_getD (monthsTotal m : Nat) (hm : m < monthsTotal) :
    ∀ (L : List InvestmentItem) (acc : List ℚ), acc.length = monthsTotal →
      (L.foldl (investmentStep monthsTotal) acc).getD m 0 =
        acc.getD m 0 -
          ((L.filter (fun a => a.month.getD 0 == (m : Int))).map
            (fun a => a.value.getD 0)).sum := by
  intro L
  induction L with
  | nil => intro acc _; simp
  | cons a L2 ih =>
    intro acc hlen
    simp only [List.foldl_cons, List.filter_cons]
    by_cases hcond : a.month.getD 0 = (m : Int)
    · have hin : 0 ≤ a.month.getD 0 ∧ a.month.getD 0 < (monthsTotal : Int) := by omega
      have htn : (a.month.getD 0).toNat = m := by omega
      have hstep : investmentStep monthsTotal acc a =
          acc.set m (acc.getD m 0 - a.value.getD 0) := by
        simp only [investmentStep, if_pos hin, htn]
      have hlen2 : (acc.set m (acc.getD m 0 - a.value.getD 0)).length = monthsTotal := by
        rw [List.length_set]; exact hlen
      rw [hstep, ih _ hlen2, getD_set]
      rw [if_pos ⟨rfl, by omega⟩]
      have hbeq : (a.month.getD 0 == (m : Int)) = true := by
        rw [beq_iff_eq]; exact hcond
      rw [if_pos hbeq]
      simp only [List.map_cons, List.sum_cons]
      ring
    · have hbeq : ¬ ((a.month.getD 0 == (m : Int)) = true) := by
        rw [beq_iff_eq]; exact hcond
      rw [if_neg hbeq]
      by_cases hin : 0 ≤ a.month.getD 0 ∧ a.month.getD 0 < (monthsTotal : Int)
      · have hstep : investmentStep monthsTotal acc a =
            acc.set (a.month.getD 0).toNat
              (acc.getD (a.month.getD 0).toNat 0 - a.value.getD 0) := by
          simp only [investmentStep, if_pos hin]
        have hlen2 : (acc.set (a.month.getD 0).toNat
            (acc.getD (a.month.getD 0).toNat 0 - a.value.getD 0)).length = monthsTotal := by
          rw [List.length_set]; exact hlen
        rw [hstep, ih _ hlen2, getD_set]
        rw [if_neg (by intro hand; exact hcond (by omega))]
      · have hstep : investmentStep monthsTotal acc a = acc := by
          simp only [investmentStep, if_neg hin]
        rw [hstep, ih _ hlen]

theorem investmentsMonthly_getD (s : SessionState) (monthsTotal m : Nat)
    (hm : m < monthsTotal) :
    (investmentsMonthly s monthsTotal).getD m 0 =
      -(((s.investments.filter (fun a => a.month.getD 0 == (m : Int))).map
          (fun a => a.value.getD 0)).sum) := by
  unfold investmentsMonthly
  rw [investments_fold_getD monthsTotal m hm s.investments (List.replicate monthsTotal 0)
    (by simp)]
  rw [getD_replicate_zero]
  ring

/-- C4 (amended): the monthly investment cash flow produced by
compute_monthly_details at month m is a single lump outflow: the negated
total value of the investment items whose acquisition month is m.  The
paymentMode and installments fields of an investment item are never read,
so an item with paymentMode installment and N > 1 is NOT spread across N
months as the original claim states; its full value leaves at the
acquisition month. -/
theorem compute_monthly_details_investment_lump (s : SessionState) (variation : ℚ)
    (m : Nat) (hm : m < horizonOf s * 12) :
    ((compute_monthly_details s variation).1.getD m default).cfInvestimento =
      -(((s.investments.filter (fun a => a.month.getD 0 == (m : Int))).map
          (fun a => a.value.getD 0)).sum) := by
  rw [compute_monthly_details_cfInvestimento s variation m hm]
  exact investmentsMonthly_getD s (horizonOf s * 12) m hm

/-- C4 counterexample: on cState (one investment of 1200 at month 0 with
paymentMode installment and 2 installments) the claim predicts outflows
of 600 at months 0 and 1; the engine instead books the full 1200 at
month 0 and nothing at month 1. -/
theorem compute_monthly_details_investment_counterexample :
    ((compute_monthly_details cState 1).1.getD 0 default).cfInvestimento = -1200 ∧
    ((compute_monthly_details cState 1).1.getD 1 default).cfInvestimento = 0 := by
  have h0 := compute_monthly_details_cfInvestimento cState 1 0 (by decide)
  have h1 := compute_monthly_details_cfInvestimento cState 1 1 (by decide)
  have hv0 : (investmentsMonthly cState 12).getD 0 0 = -1200 := by
    rw [investmentsMonthly_getD cState 12 0 (by decide)]
    norm_num [cState]
  have hv1 : (investmentsMonthly cState 12).getD 1 0 = 0 := by
    rw [investmentsMonthly_getD cState 12 1 (by decide)]
    norm_num [cState]
  have hh : horizonOf cState = 1 := by decide
  rw [hh] at h0 h1
  exact ⟨h0.trans hv0, h1.trans hv1⟩

/-- Witness for C4 (amended) on cState at month 0. -/
theorem compute_monthly_details_investment_lump_witness :
    ((compute_monthly_details cState 1).1.getD 0 default).cfInvestimento =
      -(((cState.investments.filter (fun a => a.month.getD 0 == (0 : Int))).map
          (fun a => a.value.getD 0)).sum) :=
  compute_monthly_details_investment_lump cState 1 0 (by decide)
